import Mathlib

/-!
Verification of the proj2-serv dual-protocol throughput server
(`src/main.rs`).  The development shallowly embeds the server's session
logic: the UDP datagram dispatcher with its per-peer upload-session
table, the UDP download burst sender, the TCP session handler's
command/phase loops, and the acceptor / receive loops.  Times are
naturals counted in microseconds; the session table is an association
list from peer address to session record, mirroring the `HashMap`
`active_uploads`; I/O outcomes (read/write/send/accept results) are
explicit inputs so that each loop is a pure function of its inputs.
-/

namespace Proj2Serv

/-- A peer network address (IP + port), mirroring `std::net::SocketAddr`. -/
structure SockAddr where
  ip : Nat
  port : Nat
deriving DecidableEq, Repr

/-- One peer's in-flight upload measurement: the `(Instant, usize)` value
stored in `active_uploads`: absolute deadline and accumulated bytes. -/
structure UploadSession where
  deadline : Nat
  totalBytes : Nat
deriving DecidableEq, Repr

/-- The upload session table `active_uploads: HashMap<SocketAddr, (Instant, usize)>`,
modelled as an association list (key uniqueness is an invariant, proved below). -/
abbrev SessionMap : Type := List (SockAddr × UploadSession)

/-- `HashMap::get`: first entry with the given key. -/
def lookupS : SessionMap → SockAddr → Option UploadSession
  | [], _ => none
  | (b, s) :: rest, a => if a = b then some s else lookupS rest a

/-- `HashMap::insert`: replace the entry in place if the key is present,
otherwise append a fresh entry. -/
def insertS : SessionMap → SockAddr → UploadSession → SessionMap
  | [], a, s => [(a, s)]
  | (b, t) :: rest, a, s =>
    if a = b then (a, s) :: rest else (b, t) :: insertS rest a s

/-- `HashMap::remove`: drop the (first) entry with the given key. -/
def removeS : SessionMap → SockAddr → SessionMap
  | [], _ => []
  | (b, t) :: rest, a => if a = b then rest else (b, t) :: removeS rest a

/-- The keys of the table. -/
def keysOf (m : SessionMap) : List SockAddr := m.map (fun p => p.1)

/-- Key uniqueness: at most one entry per peer address. -/
abbrev keysNodup (m : SessionMap) : Prop := (keysOf m).Nodup

/-! ### Timing and sizing constants of the source, in microseconds / bytes -/

/-- `Duration::from_secs(5)`: the measurement window for all phases. -/
def windowUs : Nat := 5000000

/-- `ACKS = 3` in both UDP control branches. -/
def ackCount : Nat := 3

/-- `ACK_INTERVAL_MS = 10` in the START_DOWNLOAD branch. -/
def downloadAckIntervalUs : Nat := 10000

/-- `ACK_INTERVAL_MS = 20` in the START_UPLOAD branch. -/
def uploadAckIntervalUs : Nat := 20000

/-- `BACKOFF_US = 20` in the burst sender. -/
def backoffUs : Nat := 20

/-- `Duration::from_millis(10)`: delay after accept / recv errors. -/
def errRetryDelayUs : Nat := 10000

/-- `BURST = 16` datagrams per burst. -/
def burstSize : Nat := 16

/-- `BUF_SIZE = 64 * 1024` for the TCP handler. -/
def tcpBufSize : Nat := 65536

/-- `PAYLOAD_SIZE = 1400` for UDP download datagrams. -/
def udpPayloadSize : Nat := 1400

/-! ### Wire text: trimmed command classification -/

/-- `s.starts_with(pat)` on decoded text. -/
def startsWithChars : List Char → List Char → Bool
  | _, [] => true
  | [], _ :: _ => false
  | c :: cs, p :: ps => c = p && startsWithChars cs ps

/-- `str::trim`: drop whitespace from both ends. -/
def trimChars (s : List Char) : List Char :=
  ((s.dropWhile (fun c => c.isWhitespace)).reverse.dropWhile
      (fun c => c.isWhitespace)).reverse

/-- The characters of the literal START_DOWNLOAD. -/
def dlCmd : List Char :=
  ['S', 'T', 'A', 'R', 'T', '_', 'D', 'O', 'W', 'N', 'L', 'O', 'A', 'D']

/-- The characters of the literal START_UPLOAD. -/
def ulCmd : List Char :=
  ['S', 'T', 'A', 'R', 'T', '_', 'U', 'P', 'L', 'O', 'A', 'D']

/-- The characters of the literal ACK_DOWNLOAD. -/
def ackDownloadPayload : List Char :=
  ['A', 'C', 'K', '_', 'D', 'O', 'W', 'N', 'L', 'O', 'A', 'D']

/-- The characters of the literal ACK_UPLOAD. -/
def ackUploadPayload : List Char :=
  ['A', 'C', 'K', '_', 'U', 'P', 'L', 'O', 'A', 'D']

/-- The 1-byte probe payload P. -/
def probePayload : List Char := ['P']

/-- The 1400-byte all-zero UDP filler datagram. -/
def udpFiller : List Char := List.replicate udpPayloadSize (Char.ofNat 0)

/-- How the dispatcher classifies a datagram's decoded, trimmed text:
`msg.starts_with("START_DOWNLOAD")`, else `msg.starts_with("START_UPLOAD")`,
else raw data. -/
inductive MsgClass where
  | download
  | upload
  | data
deriving DecidableEq, Repr

/-- Classification of a received payload, mirroring the dispatcher's
`if`/`else if`/`else` on the trimmed lossily-decoded text. -/
def classify (payload : List Char) : MsgClass :=
  let t := trimChars payload
  if startsWithChars t dlCmd then MsgClass.download
  else if startsWithChars t ulCmd then MsgClass.upload
  else MsgClass.data

/-! ### Error kinds and observable actions -/

/-- The `std::io::ErrorKind` values the source distinguishes. -/
inductive IOErrorKind where
  | wouldBlock
  | connectionReset
  | brokenPipe
  | other (code : Nat)
deriving DecidableEq, Repr

/-- Observable effects emitted while handling one datagram / one loop
iteration: socket sends, sleeps, yields, table insertion, log lines,
task spawns. -/
inductive Action where
  | sendTo (payload : List Char) (dest : SockAddr)
  | sleepUs (us : Nat)
  | yieldNow
  | tableInsert (addr : SockAddr) (s : UploadSession)
  | logFinal (addr : SockAddr) (total : Nat)
  | logUnmatched (addr : SockAddr) (len : Nat)
  | logRegistered (addr : SockAddr)
  | logSendError (dest : SockAddr)
  | logIoError (k : IOErrorKind)
  | spawnDownload (dest : SockAddr)
  | spawnTcpHandler (peer : SockAddr)
deriving DecidableEq, Repr

/-! ### UDP dispatcher branches -/

/-- One iteration of `for _ in 0..ACKS`: attempt the ACK send (logging a
send error on failure) then sleep the fixed interval.  `ok` is the
outcome of that send attempt. -/
def ackOnce (payload : List Char) (dest : SockAddr) (intervalUs : Nat)
    (ok : Bool) : List Action :=
  Action.sendTo payload dest ::
    (if ok then [] else [Action.logSendError dest]) ++
      [Action.sleepUs intervalUs]

/-- The ACK loop, `n` iterations; `oks i` is the outcome of the `i`-th
send attempt. -/
def ackLoopN (payload : List Char) (dest : SockAddr) (intervalUs : Nat) :
    Nat → (Nat → Bool) → List Action
  | 0, _ => []
  | n + 1, oks =>
    ackOnce payload dest intervalUs (oks 0) ++
      ackLoopN payload dest intervalUs n (fun i => oks (i + 1))

/-- The START_DOWNLOAD branch: 3 ACK_DOWNLOAD datagrams 10ms apart, then
spawn the burst-sender task and `continue` (the session table is not
touched). -/
def handleStartDownload (addr : SockAddr) (ackOks : Nat → Bool) : List Action :=
  ackLoopN ackDownloadPayload addr downloadAckIntervalUs ackCount ackOks ++
    [Action.spawnDownload addr]

/-- The START_UPLOAD branch: insert/replace the session entry for `addr`
with deadline `now + 5s` and count 0 first, then send 3 ACK_UPLOAD
datagrams 20ms apart and one probe P; log registration if the probe
send succeeded, else log the send error. -/
def handleStartUpload (m : SessionMap) (addr : SockAddr) (now : Nat)
    (ackOks : Nat → Bool) (probeOk : Bool) : List Action × SessionMap :=
  let sess : UploadSession := ⟨now + windowUs, 0⟩
  let probeActs : List Action :=
    Action.sendTo probePayload addr ::
      (if probeOk then [Action.logRegistered addr] else [Action.logSendError addr])
  (Action.tableInsert addr sess ::
      ackLoopN ackUploadPayload addr uploadAckIntervalUs ackCount ackOks ++
        probeActs,
    insertS m addr sess)

/-- The non-control lookup block (`map.get_mut(&addr)`): count the bytes
if the entry is live, finalize and remove it if expired (the arriving
`len` not counted), or log an unmatched datagram. -/
def handleData (m : SessionMap) (addr : SockAddr) (len : Nat) (now : Nat) :
    List Action × SessionMap :=
  match lookupS m addr with
  | some s =>
    if now ≤ s.deadline then
      ([], insertS m addr ⟨s.deadline, s.totalBytes + len⟩)
    else
      ([Action.logFinal addr s.totalBytes], removeS m addr)
  | none => ([Action.logUnmatched addr len], m)

/-- Whether an entry's deadline has passed (`now > *deadline`). -/
def expiredAt (now : Nat) (p : SockAddr × UploadSession) : Bool :=
  decide (now > p.2.deadline)

/-- The sweep's collection pass: addresses of all expired entries. -/
def sweepCollect (m : SessionMap) (now : Nat) : List SockAddr :=
  (m.filter (expiredAt now)).map (fun p => p.1)

/-- The sweep's removal pass: `for client in expired { if let Some ... =
map.remove(&client) { log final } }`. -/
def sweepLoop : SessionMap → List SockAddr → List Action × SessionMap
  | m, [] => ([], m)
  | m, c :: cs =>
    match lookupS m c with
    | some s =>
      let r := sweepLoop (removeS m c) cs
      (Action.logFinal c s.totalBytes :: r.1, r.2)
    | none => sweepLoop m cs

/-- The full sweep of expired entries. -/
def sweep (m : SessionMap) (now : Nat) : List Action × SessionMap :=
  sweepLoop m (sweepCollect m now)

/-- The whole non-control branch: the lookup block at time `now`, then
the sweep at the (fresh) time `nowSweep`. -/
def handleNonControl (m : SessionMap) (addr : SockAddr) (len : Nat)
    (now nowSweep : Nat) : List Action × SessionMap :=
  let r1 := handleData m addr len now
  let r2 := sweep r1.2 nowSweep
  (r1.1 ++ r2.1, r2.2)

/-- One dispatch of a successfully received datagram `(payload, len)`
from `addr`: classify the trimmed text and run the matching branch.
`now` is the clock at the lookup / registration, `nowSweep` at the
sweep; `ackOks` and `probeOk` are the outcomes of the control-reply
send attempts. -/
def udpDispatchStep (m : SessionMap) (addr : SockAddr) (payload : List Char)
    (len : Nat) (now nowSweep : Nat) (ackOks : Nat → Bool) (probeOk : Bool) :
    List Action × SessionMap :=
  match classify payload with
  | MsgClass.download => (handleStartDownload addr ackOks, m)
  | MsgClass.upload => handleStartUpload m addr now ackOks probeOk
  | MsgClass.data => handleNonControl m addr len now nowSweep

/-! ### TCP session handler -/

/-- The outcome of `stream.read(&mut read_buf)`. -/
inductive ReadResult where
  | ok (n : Nat)
  | err (k : IOErrorKind)
deriving DecidableEq, Repr

/-- What the command loop does with one read outcome. -/
inductive CmdOutcome where
  | terminateOk
  | terminateErr (k : IOErrorKind)
  | runCommand (n : Nat)
deriving DecidableEq, Repr

/-- The command-loop read dispatch of `handle_tcp_client`: `Ok(0)` is a
graceful close (return `Ok`), a `ConnectionReset` error also returns
`Ok`, any other error is propagated, and `Ok(n)` with `n > 0` proceeds
to run the decoded command. -/
def commandReadStep : ReadResult → CmdOutcome
  | ReadResult.ok 0 => CmdOutcome.terminateOk
  | ReadResult.ok (n + 1) => CmdOutcome.runCommand (n + 1)
  | ReadResult.err k =>
    if k = IOErrorKind.connectionReset then CmdOutcome.terminateOk
    else CmdOutcome.terminateErr k

/-- What one upload-phase read outcome does to the phase. -/
inductive UploadStep where
  | endPhase
  | addBytes (n : Nat)
  | yieldRetry
deriving DecidableEq, Repr

/-- The upload-phase read dispatch: `Ok(0)` breaks, `Ok(m)` accumulates,
`WouldBlock` yields and retries, `ConnectionReset` breaks, any other
error breaks (logged). -/
def uploadPhaseStep : ReadResult → UploadStep
  | ReadResult.ok 0 => UploadStep.endPhase
  | ReadResult.ok (n + 1) => UploadStep.addBytes (n + 1)
  | ReadResult.err k =>
    if k = IOErrorKind.wouldBlock then UploadStep.yieldRetry
    else UploadStep.endPhase

/-- What one download-phase write outcome does to the phase. -/
inductive WriteStep where
  | continueSend
  | endPhase
deriving DecidableEq, Repr

/-- The download-phase write dispatch: on success the loop continues and
accounts the chunk; on any error (`BrokenPipe` / `ConnectionReset` /
anything else, `WouldBlock` included) the phase breaks. -/
def downloadWriteStep : Option IOErrorKind → WriteStep
  | none => WriteStep.continueSend
  | some _ => WriteStep.endPhase

/-- The TCP download phase: each iteration first checks
`start.elapsed() < 5s` at the observed clock `t`, then attempts one
`write_all` whose outcome is the second component.  Returns the bytes
accounted and the check-times of all initiated writes. -/
def tcpDownloadLoop (start : Nat) : List (Nat × Option IOErrorKind) → Nat × List Nat
  | [] => (0, [])
  | (t, res) :: rest =>
    if t - start < windowUs then
      match downloadWriteStep res with
      | WriteStep.continueSend =>
        let r := tcpDownloadLoop start rest
        (tcpBufSize + r.1, t :: r.2)
      | WriteStep.endPhase => (0, [t])
    else (0, [])

/-- The TCP upload phase: each iteration checks the deadline at clock
`t`, then performs one read.  Returns bytes accumulated and the
check-times of all initiated reads. -/
def tcpUploadLoop (start : Nat) : List (Nat × ReadResult) → Nat × List Nat
  | [] => (0, [])
  | (t, res) :: rest =>
    if t - start < windowUs then
      match uploadPhaseStep res with
      | UploadStep.addBytes n =>
        let r := tcpUploadLoop start rest
        (n + r.1, t :: r.2)
      | UploadStep.yieldRetry =>
        let r := tcpUploadLoop start rest
        (r.1, t :: r.2)
      | UploadStep.endPhase => (0, [t])
    else (0, [])

/-! ### UDP download burst sender -/

/-- The outcome of one `sock.send_to(&payload, &dest)`. -/
inductive SendResult where
  | ok (n : Nat)
  | err (k : IOErrorKind)
deriving DecidableEq, Repr

/-- The inner `for _ in 0..BURST` loop with `fuel` iterations left and
`res i` the outcome of the `i`-th send attempt: a success accumulates
its bytes and sets `any_sent`; any error sleeps the backoff (logging
unless it is would-block) and breaks the burst.  Returns the emitted
actions, the bytes accumulated, and the `any_sent` flag. -/
def burstInner (dest : SockAddr) : Nat → (Nat → SendResult) → List Action × Nat × Bool
  | 0, _ => ([], 0, false)
  | fuel + 1, res =>
    match res 0 with
    | SendResult.ok n =>
      let r := burstInner dest fuel (fun i => res (i + 1))
      (Action.sendTo udpFiller dest :: r.1, n + r.2.1, true)
    | SendResult.err e =>
      (Action.sendTo udpFiller dest ::
          (if e = IOErrorKind.wouldBlock then [] else [Action.logSendError dest]) ++
            [Action.sleepUs backoffUs],
        0, false)

/-- One outer iteration of the burst sender: the burst of up to `BURST`
sends, then a cooperative yield if anything was sent, else a backoff
sleep. -/
def burstIteration (dest : SockAddr) (res : Nat → SendResult) : List Action × Nat :=
  let r := burstInner dest burstSize res
  (r.1 ++ (if r.2.2 then [Action.yieldNow] else [Action.sleepUs backoffUs]), r.2.1)

/-- The burst sender's outer `while start.elapsed() < 5s` loop: each
iteration checks the deadline at clock `t` before attempting a burst
with send outcomes `res`.  Returns total bytes and the check-times of
all initiated bursts. -/
def udpBurstLoop (dest : SockAddr) (start : Nat) :
    List (Nat × (Nat → SendResult)) → Nat × List Nat
  | [] => (0, [])
  | (t, res) :: rest =>
    if t - start < windowUs then
      let b := burstIteration dest res
      let r := udpBurstLoop dest start rest
      (b.2 + r.1, t :: r.2)
    else (0, [])

/-! ### Acceptor and receive loops -/

/-- The outcome of `listener.accept()`. -/
inductive AcceptResult where
  | ok (peer : SockAddr)
  | err (k : IOErrorKind)
deriving DecidableEq, Repr

/-- The outcome of `udp_socket.recv_from(&mut recv_buf)`. -/
inductive RecvResult where
  | ok (len : Nat) (addr : SockAddr) (payload : List Char)
  | err (k : IOErrorKind)

/-- Whether a loop iteration continues the loop or exits it. -/
inductive LoopCtl where
  | continueLoop
  | exitLoop
deriving DecidableEq, Repr

/-- One iteration of `run_tcp_server`'s accept loop: on success spawn a
handler; on error log and sleep 10ms.  Either way the loop continues. -/
def tcpAcceptIter : AcceptResult → List Action × LoopCtl
  | AcceptResult.ok peer => ([Action.spawnTcpHandler peer], LoopCtl.continueLoop)
  | AcceptResult.err k =>
    ([Action.logIoError k, Action.sleepUs errRetryDelayUs], LoopCtl.continueLoop)

/-- One iteration of `run_udp_server`'s receive loop: a received datagram
is dispatched; a receive error is logged and followed by a 10ms sleep.
Either way the loop continues. -/
def udpServerIter (m : SessionMap) (r : RecvResult) (now nowSweep : Nat)
    (ackOks : Nat → Bool) (probeOk : Bool) : List Action × SessionMap × LoopCtl :=
  match r with
  | RecvResult.ok len addr payload =>
    let d := udpDispatchStep m addr payload len now nowSweep ackOks probeOk
    (d.1, d.2, LoopCtl.continueLoop)
  | RecvResult.err k =>
    ([Action.logIoError k, Action.sleepUs errRetryDelayUs], m, LoopCtl.continueLoop)

/-- Whether an action reads or writes the upload session table (an
insertion, a final-count log of a removed entry, or an unmatched-data
log after a failed lookup). -/
def touchesTable : Action → Bool
  | Action.tableInsert _ _ => true
  | Action.logFinal _ _ => true
  | Action.logUnmatched _ _ => true
  | _ => false

/-- Whether an action is anything other than a failed-send log line
(used to describe a control reply's happy-path shape independently of
which best-effort sends failed). -/
def isNotSendErrorLog : Action → Bool
  | Action.logSendError _ => false
  | _ => true

/-- The shape of `n` ACK iterations with the failed-send logs removed:
a send followed by a sleep, `n` times. -/
def ackFilteredN (payload : List Char) (dest : SockAddr) (intervalUs : Nat) :
    Nat → List Action
  | 0 => []
  | n + 1 =>
    Action.sendTo payload dest :: Action.sleepUs intervalUs ::
      ackFilteredN payload dest intervalUs n

/-- A send-outcome environment in which every send attempt succeeds,
used to instantiate concrete runs. -/
def allSendsOk : Nat → Bool := fun _ => true

/-- A send-result environment in which every burst send succeeds with
the full datagram size, used to instantiate concrete runs. -/
def allBurstOk : Nat → SendResult := fun _ => SendResult.ok udpPayloadSize

/-- Whether an action is a datagram send attempt. -/
def isSendAction : Action → Bool
  | Action.sendTo _ _ => true
  | _ => false

/-- The number of send attempts in an action list. -/
def sendCount (acts : List Action) : Nat := (acts.filter isSendAction).length

/-- The index of the first failed send among the first `n` outcomes of
`res`, if any. -/
def firstErrBelow (res : Nat → SendResult) : Nat → Option Nat
  | 0 => none
  | n + 1 =>
    match res 0 with
    | SendResult.ok _ =>
      (firstErrBelow (fun i => res (i + 1)) n).map (fun i => i + 1)
    | SendResult.err _ => some 0

/-- The bytes reported by the successful sends of `res` before its first
failure, looking at the first `n` outcomes. -/
def okBytesBelow (res : Nat → SendResult) : Nat → Nat
  | 0 => 0
  | n + 1 =>
    match res 0 with
    | SendResult.ok b => b + okBytesBelow (fun i => res (i + 1)) n
    | SendResult.err _ => 0

/-! ### Lemmas on the session map -/

theorem lookupS_cons_self (c : SockAddr) (t : UploadSession) (rest : SessionMap) :
    lookupS ((c, t) :: rest) c = some t := by
  simp [lookupS]

theorem lookupS_cons_ne (c a : SockAddr) (t : UploadSession) (rest : SessionMap)
    (h : a ≠ c) : lookupS ((c, t) :: rest) a = lookupS rest a := by
  simp [lookupS, h]

theorem insertS_cons_self (c : SockAddr) (t v : UploadSession) (rest : SessionMap) :
    insertS ((c, t) :: rest) c v = (c, v) :: rest := by
  simp [insertS]

theorem insertS_cons_ne (c k : SockAddr) (t v : UploadSession) (rest : SessionMap)
    (h : k ≠ c) : insertS ((c, t) :: rest) k v = (c, t) :: insertS rest k v := by
  simp [insertS, h]

theorem removeS_cons_self (c : SockAddr) (t : UploadSession) (rest : SessionMap) :
    removeS ((c, t) :: rest) c = rest := by
  simp [removeS]

theorem removeS_cons_ne (c k : SockAddr) (t : UploadSession) (rest : SessionMap)
    (h : k ≠ c) : removeS ((c, t) :: rest) k = (c, t) :: removeS rest k := by
  simp [removeS, h]

theorem lookupS_insertS (m : SessionMap) (a k : SockAddr) (v : UploadSession) :
    lookupS (insertS m k v) a = if a = k then some v else lookupS m a := by
  induction m with
  | nil => by_cases hak : a = k <;> simp [insertS, lookupS, hak]
  | cons p rest ih =>
    obtain ⟨c, t⟩ := p
    by_cases hkc : k = c
    · subst hkc
      rw [insertS_cons_self]
      by_cases hak : a = k
      · subst hak
        rw [lookupS_cons_self, if_pos rfl]
      · rw [lookupS_cons_ne _ _ _ _ hak, if_neg hak, lookupS_cons_ne _ _ _ _ hak]
    · rw [insertS_cons_ne _ _ _ _ _ hkc]
      by_cases hac : a = c
      · subst hac
        have hak : a ≠ k := fun h => hkc h.symm
        rw [lookupS_cons_self, if_neg hak, lookupS_cons_self]
      · rw [lookupS_cons_ne _ _ _ _ hac, lookupS_cons_ne _ _ _ _ hac, ih]

theorem mem_keysOf_insertS (m : SessionMap) (a k : SockAddr) (v : UploadSession) :
    a ∈ keysOf (insertS m k v) ↔ a = k ∨ a ∈ keysOf m := by
  induction m with
  | nil => simp [insertS, keysOf]
  | cons p rest ih =>
    obtain ⟨c, t⟩ := p
    by_cases hkc : k = c
    · subst hkc
      rw [insertS_cons_self]
      simp only [keysOf, List.map_cons, List.mem_cons]
      tauto
    · rw [insertS_cons_ne _ _ _ _ _ hkc]
      simp only [keysOf, List.map_cons, List.mem_cons] at ih ⊢
      tauto

theorem keysNodup_insertS (m : SessionMap) (k : SockAddr) (v : UploadSession)
    (h : keysNodup m) : keysNodup (insertS m k v) := by
  induction m with
  | nil => exact List.nodup_singleton k
  | cons p rest ih =>
    obtain ⟨c, t⟩ := p
    simp only [keysNodup, keysOf, List.map_cons, List.nodup_cons] at h
    by_cases hkc : k = c
    · subst hkc
      rw [insertS_cons_self]
      simpa only [keysNodup, keysOf, List.map_cons, List.nodup_cons] using h
    · have hrest := ih h.2
      rw [insertS_cons_ne _ _ _ _ _ hkc]
      simp only [keysNodup, keysOf, List.map_cons, List.nodup_cons]
      refine ⟨?_, hrest⟩
      intro hc
      rcases (mem_keysOf_insertS rest c k v).mp hc with h1 | h2
      · exact hkc h1.symm
      · exact h.1 h2

theorem keysOf_removeS_sublist (m : SessionMap) (k : SockAddr) :
    List.Sublist (keysOf (removeS m k)) (keysOf m) := by
  induction m with
  | nil => exact List.nil_sublist _
  | cons p rest ih =>
    obtain ⟨c, t⟩ := p
    by_cases hkc : k = c
    · subst hkc
      rw [removeS_cons_self]
      exact List.Sublist.cons k (List.Sublist.refl _)
    · rw [removeS_cons_ne _ _ _ _ hkc]
      exact List.Sublist.cons₂ c ih

theorem keysNodup_removeS (m : SessionMap) (k : SockAddr) (h : keysNodup m) :
    keysNodup (removeS m k) :=
  List.Nodup.sublist (keysOf_removeS_sublist m k) h

theorem lookupS_eq_none_iff (m : SessionMap) (a : SockAddr) :
    lookupS m a = none ↔ a ∉ keysOf m := by
  induction m with
  | nil => simp [lookupS, keysOf]
  | cons p rest ih =>
    obtain ⟨c, t⟩ := p
    by_cases hac : a = c <;> simp [lookupS, keysOf, hac, ih]

theorem lookupS_some_mem (m : SessionMap) (a : SockAddr) (s : UploadSession)
    (h : lookupS m a = some s) : (a, s) ∈ m := by
  induction m with
  | nil => simp [lookupS] at h
  | cons p rest ih =>
    obtain ⟨c, t⟩ := p
    by_cases hac : a = c
    · subst hac
      rw [lookupS_cons_self] at h
      rw [show t = s from Option.some.inj h]
      exact List.mem_cons_self _ _
    · rw [lookupS_cons_ne _ _ _ _ hac] at h
      exact List.mem_cons_of_mem _ (ih h)

theorem lookupS_removeS (m : SessionMap) (a k : SockAddr) (h : keysNodup m) :
    lookupS (removeS m k) a = if a = k then none else lookupS m a := by
  induction m with
  | nil => by_cases hak : a = k <;> simp [removeS, lookupS, hak]
  | cons p rest ih =>
    obtain ⟨c, t⟩ := p
    simp only [keysNodup, keysOf, List.map_cons, List.nodup_cons] at h
    by_cases hkc : k = c
    · subst hkc
      rw [removeS_cons_self]
      by_cases hak : a = k
      · subst hak
        rw [if_pos rfl]
        exact (lookupS_eq_none_iff rest a).mpr h.1
      · rw [if_neg hak, lookupS_cons_ne _ _ _ _ hak]
    · rw [removeS_cons_ne _ _ _ _ hkc]
      by_cases hac : a = c
      · subst hac
        have hak : a ≠ k := fun hh => hkc hh.symm
        rw [lookupS_cons_self, if_neg hak, lookupS_cons_self]
      · rw [lookupS_cons_ne _ _ _ _ hac, ih h.2, lookupS_cons_ne _ _ _ _ hac]

/-! ### Counting final-report log lines -/

/-- Whether an action is the final-count log line for peer `c`. -/
def isLogFinalFor (c : SockAddr) : Action → Bool
  | Action.logFinal d _ => decide (d = c)
  | _ => false

/-- How many final-count log lines for peer `c` a list of actions holds. -/
def logFinalCount (acts : List Action) (c : SockAddr) : Nat :=
  (acts.filter (isLogFinalFor c)).length

theorem logFinalCount_nil (c : SockAddr) : logFinalCount [] c = 0 := rfl

theorem logFinalCount_cons_pos (c : SockAddr) (x : Action) (acts : List Action)
    (h : isLogFinalFor c x = true) :
    logFinalCount (x :: acts) c = logFinalCount acts c + 1 := by
  simp [logFinalCount, List.filter_cons, h]

theorem logFinalCount_cons_neg (c : SockAddr) (x : Action) (acts : List Action)
    (h : isLogFinalFor c x = false) :
    logFinalCount (x :: acts) c = logFinalCount acts c := by
  simp [logFinalCount, List.filter_cons, h]

theorem logFinalCount_append (c : SockAddr) (xs ys : List Action) :
    logFinalCount (xs ++ ys) c = logFinalCount xs c + logFinalCount ys c := by
  simp [logFinalCount, List.filter_append]

/-! ### Lemmas on the sweep -/

theorem mem_sweepCollect (m : SessionMap) (t : Nat) (a : SockAddr) :
    a ∈ sweepCollect m t ↔ ∃ s, (a, s) ∈ m ∧ t > s.deadline := by
  simp only [sweepCollect, List.mem_map, List.mem_filter, expiredAt,
    decide_eq_true_eq]
  constructor
  · rintro ⟨⟨b, s⟩, ⟨hmem, hexp⟩, rfl⟩
    exact ⟨s, hmem, hexp⟩
  · rintro ⟨s, hmem, hexp⟩
    exact ⟨(a, s), ⟨hmem, hexp⟩, rfl⟩

theorem sweepCollect_sublist_keys (m : SessionMap) (t : Nat) :
    List.Sublist (sweepCollect m t) (keysOf m) := by
  unfold sweepCollect keysOf
  exact List.Sublist.map _ (List.filter_sublist m)

theorem sweepCollect_nodup (m : SessionMap) (t : Nat) (h : keysNodup m) :
    (sweepCollect m t).Nodup :=
  List.Nodup.sublist (sweepCollect_sublist_keys m t) h

theorem lookupS_sweepLoop (a : SockAddr) (cs : List SockAddr) :
    ∀ m : SessionMap, keysNodup m →
      lookupS (sweepLoop m cs).2 a = if a ∈ cs then none else lookupS m a := by
  induction cs with
  | nil => intro m hm; simp [sweepLoop]
  | cons c cs ih =>
    intro m hm
    cases hl : lookupS m c with
    | some s =>
      have hrec := ih (removeS m c) (keysNodup_removeS m c hm)
      simp only [sweepLoop, hl]
      rw [hrec, lookupS_removeS m a c hm]
      by_cases hac : a = c <;> by_cases hacs : a ∈ cs <;>
        simp [List.mem_cons, hac, hacs]
    | none =>
      simp only [sweepLoop, hl]
      rw [ih m hm]
      by_cases hac : a = c
      · subst hac
        by_cases hacs : a ∈ cs <;> simp [List.mem_cons, hacs, hl]
      · by_cases hacs : a ∈ cs <;> simp [List.mem_cons, hac, hacs]

theorem keysNodup_sweepLoop (cs : List SockAddr) :
    ∀ m : SessionMap, keysNodup m → keysNodup (sweepLoop m cs).2 := by
  induction cs with
  | nil => intro m hm; simpa [sweepLoop] using hm
  | cons c cs ih =>
    intro m hm
    cases hl : lookupS m c with
    | some s =>
      simp only [sweepLoop, hl]
      exact ih (removeS m c) (keysNodup_removeS m c hm)
    | none =>
      simp only [sweepLoop, hl]
      exact ih m hm

theorem logFinalCount_sweepLoop (c : SockAddr) (cs : List SockAddr) :
    ∀ m : SessionMap, keysNodup m → cs.Nodup →
      logFinalCount (sweepLoop m cs).1 c =
        if c ∈ cs then (if (lookupS m c).isSome then 1 else 0) else 0 := by
  induction cs with
  | nil => intro m hm hcs; simp [sweepLoop, logFinalCount]
  | cons d cs ih =>
    intro m hm hcs
    have hd : d ∉ cs := (List.nodup_cons.mp hcs).1
    have hcs2 : cs.Nodup := (List.nodup_cons.mp hcs).2
    cases hl : lookupS m d with
    | some s =>
      have hrec := ih (removeS m d) (keysNodup_removeS m d hm) hcs2
      simp only [sweepLoop, hl]
      by_cases hcd : c = d
      · subst hcd
        rw [logFinalCount_cons_pos c _ _ (by simp [isLogFinalFor])]
        rw [hrec, lookupS_removeS m c c hm, if_pos rfl]
        simp [hd, hl, List.mem_cons]
      · rw [logFinalCount_cons_neg c _ _
            (by simp [isLogFinalFor]; exact fun h => hcd h.symm)]
        rw [hrec, lookupS_removeS m c d hm, if_neg hcd]
        by_cases hccs : c ∈ cs <;> simp [List.mem_cons, hcd, hccs]
    | none =>
      simp only [sweepLoop, hl]
      rw [ih m hm hcs2]
      by_cases hcd : c = d
      · subst hcd
        by_cases hccs : c ∈ cs <;> simp [List.mem_cons, hccs, hl]
      · by_cases hccs : c ∈ cs <;> simp [List.mem_cons, hcd, hccs]

theorem mem_lookup_isSome (m : SessionMap) (a : SockAddr) (s : UploadSession)
    (h : (a, s) ∈ m) : (lookupS m a).isSome := by
  induction m with
  | nil => simp at h
  | cons p rest ih =>
    obtain ⟨c, t⟩ := p
    by_cases hac : a = c
    · subst hac
      rw [lookupS_cons_self]
      rfl
    · rw [lookupS_cons_ne _ _ _ _ hac]
      rcases List.mem_cons.mp h with h1 | h2
      · exact absurd (congrArg Prod.fst h1) hac
      · exact ih h2

theorem mem_sweepCollect_of_lookup (m : SessionMap) (t : Nat) (a : SockAddr)
    (s : UploadSession) (hl : lookupS m a = some s) (hexp : t > s.deadline) :
    a ∈ sweepCollect m t :=
  (mem_sweepCollect m t a).mpr ⟨s, lookupS_some_mem m a s hl, hexp⟩

theorem lookup_isSome_of_mem_sweepCollect (m : SessionMap) (t : Nat) (a : SockAddr)
    (h : a ∈ sweepCollect m t) : (lookupS m a).isSome := by
  rcases (mem_sweepCollect m t a).mp h with ⟨s, hmem, _⟩
  exact mem_lookup_isSome m a s hmem

theorem lookupS_sweep (m : SessionMap) (t : Nat) (a : SockAddr) (hm : keysNodup m) :
    lookupS (sweep m t).2 a = if a ∈ sweepCollect m t then none else lookupS m a :=
  lookupS_sweepLoop a (sweepCollect m t) m hm

theorem keysNodup_sweep (m : SessionMap) (t : Nat) (hm : keysNodup m) :
    keysNodup (sweep m t).2 :=
  keysNodup_sweepLoop (sweepCollect m t) m hm

theorem logFinalCount_sweep (m : SessionMap) (t : Nat) (c : SockAddr)
    (hm : keysNodup m) :
    logFinalCount (sweep m t).1 c =
      if c ∈ sweepCollect m t then (if (lookupS m c).isSome then 1 else 0) else 0 :=
  logFinalCount_sweepLoop c (sweepCollect m t) m hm (sweepCollect_nodup m t hm)

theorem sweep_result_not_expired (m : SessionMap) (t : Nat) (a : SockAddr)
    (s : UploadSession) (hm : keysNodup m) (h : lookupS (sweep m t).2 a = some s) :
    t ≤ s.deadline := by
  rw [lookupS_sweep m t a hm] at h
  by_cases hmem : a ∈ sweepCollect m t
  · rw [if_pos hmem] at h
    exact absurd h (by simp)
  · rw [if_neg hmem] at h
    by_contra hlt
    exact hmem (mem_sweepCollect_of_lookup m t a s h (Nat.lt_of_not_le hlt))

/-! ### Lemmas on the non-control branch -/

theorem handleData_live (m : SessionMap) (addr : SockAddr) (len now : Nat)
    (s : UploadSession) (h : lookupS m addr = some s) (hlive : now ≤ s.deadline) :
    handleData m addr len now =
      ([], insertS m addr ⟨s.deadline, s.totalBytes + len⟩) := by
  simp [handleData, h, hlive]

theorem handleData_expired (m : SessionMap) (addr : SockAddr) (len now : Nat)
    (s : UploadSession) (h : lookupS m addr = some s) (hexp : ¬ now ≤ s.deadline) :
    handleData m addr len now =
      ([Action.logFinal addr s.totalBytes], removeS m addr) := by
  simp [handleData, h, hexp]

theorem handleData_unmatched (m : SessionMap) (addr : SockAddr) (len now : Nat)
    (h : lookupS m addr = none) :
    handleData m addr len now = ([Action.logUnmatched addr len], m) := by
  simp [handleData, h]

theorem keysNodup_handleData (m : SessionMap) (addr : SockAddr) (len now : Nat)
    (hm : keysNodup m) : keysNodup (handleData m addr len now).2 := by
  cases h : lookupS m addr with
  | some s =>
    by_cases hlive : now ≤ s.deadline
    · rw [handleData_live m addr len now s h hlive]
      exact keysNodup_insertS m addr _ hm
    · rw [handleData_expired m addr len now s h hlive]
      exact keysNodup_removeS m addr hm
  | none =>
    rw [handleData_unmatched m addr len now h]
    exact hm

/-! ### Claim theorems -/

/-- C1: for a non-control datagram of length `len` from `addr` handled at
time `now` (the lookup block of `run_udp_server`): a live entry has its
byte count incremented by exactly `len` and remains, with every other
entry untouched; an expired entry has its accumulated count logged and
is removed, `len` not counted; with no entry, the datagram is logged as
unmatched and the table is unchanged. -/
theorem C1_non_control_accounting (m : SessionMap) (addr : SockAddr)
    (len now : Nat) (hm : keysNodup m) :
    (∀ s, lookupS m addr = some s → now ≤ s.deadline →
      (handleData m addr len now).1 = [] ∧
      lookupS (handleData m addr len now).2 addr =
        some ⟨s.deadline, s.totalBytes + len⟩ ∧
      ∀ b, b ≠ addr → lookupS (handleData m addr len now).2 b = lookupS m b) ∧
    (∀ s, lookupS m addr = some s → now > s.deadline →
      (handleData m addr len now).1 = [Action.logFinal addr s.totalBytes] ∧
      lookupS (handleData m addr len now).2 addr = none ∧
      ∀ b, b ≠ addr → lookupS (handleData m addr len now).2 b = lookupS m b) ∧
    (lookupS m addr = none →
      (handleData m addr len now).1 = [Action.logUnmatched addr len] ∧
      (handleData m addr len now).2 = m) := by
  refine ⟨?_, ?_, ?_⟩
  · intro s hl hlive
    rw [handleData_live m addr len now s hl hlive]
    refine ⟨rfl, ?_, ?_⟩
    · rw [lookupS_insertS, if_pos rfl]
    · intro b hb
      rw [lookupS_insertS, if_neg hb]
  · intro s hl hexp
    rw [handleData_expired m addr len now s hl (Nat.not_le_of_lt hexp)]
    refine ⟨rfl, ?_, ?_⟩
    · rw [lookupS_removeS m addr addr hm, if_pos rfl]
    · intro b hb
      rw [lookupS_removeS m b addr hm, if_neg hb]
  · intro hl
    rw [handleData_unmatched m addr len now hl]
    exact ⟨rfl, rfl⟩

/-- Witness for C1 at a concrete live session: a 5-byte datagram from a
peer whose entry has deadline 10 and count 7, arriving at time 3,
leaves the entry with count 12. -/
theorem C1_non_control_accounting_witness :
    lookupS (handleData [(⟨1, 1⟩, ⟨10, 7⟩)] ⟨1, 1⟩ 5 3).2 ⟨1, 1⟩ =
      some ⟨10, 12⟩ := by
  have h :=
    (C1_non_control_accounting [(⟨1, 1⟩, ⟨10, 7⟩)] ⟨1, 1⟩ 5 3 (by decide)).1
      ⟨10, 7⟩ (by decide) (by decide)
  exact h.2.1

/-- C2 counterexample: the claim says every received datagram — control
or not — drives the sweep.  But a START_DOWNLOAD datagram leaves the
table untouched: with an entry for peer (1,1) whose deadline 0 has long
passed (now = 10), after the dispatcher handles START_DOWNLOAD from
peer (2,2) the expired entry is still present and its final count was
not logged. -/
theorem C2_control_no_sweep_counterexample :
    (udpDispatchStep [(⟨1, 1⟩, ⟨0, 7⟩)] ⟨2, 2⟩ dlCmd 14 10 10 allSendsOk true).2 =
      [(⟨1, 1⟩, ⟨0, 7⟩)] ∧
    (10 : Nat) > 0 ∧
    logFinalCount
      (udpDispatchStep [(⟨1, 1⟩, ⟨0, 7⟩)] ⟨2, 2⟩ dlCmd 14 10 10 allSendsOk true).1
      ⟨1, 1⟩ = 0 := by
  refine ⟨?_, by decide, ?_⟩ <;> decide

/-- C2 amended: after the dispatcher handles a NON-control datagram
(from any peer), no entry whose deadline has passed at the sweep's
clock remains, each peer's final count is logged at most once during
the dispatch, and every entry that was removed had its final count
logged exactly once. -/
theorem C2_sweep_after_non_control (m : SessionMap) (addr : SockAddr)
    (len now nowSweep : Nat) (hm : keysNodup m) :
    (∀ a s, lookupS (handleNonControl m addr len now nowSweep).2 a = some s →
      nowSweep ≤ s.deadline) ∧
    (∀ c, logFinalCount (handleNonControl m addr len now nowSweep).1 c ≤ 1) ∧
    (∀ a s, lookupS m a = some s →
      lookupS (handleNonControl m addr len now nowSweep).2 a = none →
      logFinalCount (handleNonControl m addr len now nowSweep).1 a = 1) := by
  have hm1 : keysNodup (handleData m addr len now).2 :=
    keysNodup_handleData m addr len now hm
  have hMap : (handleNonControl m addr len now nowSweep).2 =
      (sweep (handleData m addr len now).2 nowSweep).2 := rfl
  have hActs : (handleNonControl m addr len now nowSweep).1 =
      (handleData m addr len now).1 ++
        (sweep (handleData m addr len now).2 nowSweep).1 := rfl
  refine ⟨?_, ?_, ?_⟩
  · intro a s h
    rw [hMap] at h
    exact sweep_result_not_expired _ nowSweep a s hm1 h
  · intro c
    rw [hActs, logFinalCount_append]
    cases hl : lookupS m addr with
    | none =>
      have e1 : (handleData m addr len now).1 = [Action.logUnmatched addr len] := by
        rw [handleData_unmatched m addr len now hl]
      have e2 : (handleData m addr len now).2 = m := by
        rw [handleData_unmatched m addr len now hl]
      have h0 : logFinalCount [Action.logUnmatched addr len] c = 0 := by
        simp [logFinalCount, isLogFinalFor]
      rw [e1, e2, h0, logFinalCount_sweep m nowSweep c hm]
      split_ifs <;> omega
    | some s =>
      by_cases hlive : now ≤ s.deadline
      · have he := handleData_live m addr len now s hl hlive
        have e1 : (handleData m addr len now).1 = [] := by rw [he]
        have e2 : (handleData m addr len now).2 =
            insertS m addr ⟨s.deadline, s.totalBytes + len⟩ := by rw [he]
        rw [e1, e2, logFinalCount_nil,
          logFinalCount_sweep _ nowSweep c (keysNodup_insertS m addr _ hm)]
        split_ifs <;> omega
      · have he := handleData_expired m addr len now s hl hlive
        have e1 : (handleData m addr len now).1 =
            [Action.logFinal addr s.totalBytes] := by rw [he]
        have e2 : (handleData m addr len now).2 = removeS m addr := by rw [he]
        rw [e1, e2, logFinalCount_sweep _ nowSweep c (keysNodup_removeS m addr hm)]
        by_cases hc : c = addr
        · subst hc
          have h1 : logFinalCount [Action.logFinal c s.totalBytes] c = 1 := by
            simp [logFinalCount, isLogFinalFor]
          have hnone : lookupS (removeS m c) c = none := by
            rw [lookupS_removeS m c c hm, if_pos rfl]
          rw [h1, hnone]
          simp
        · have haddr : addr ≠ c := fun h => hc h.symm
          have h1 : logFinalCount [Action.logFinal addr s.totalBytes] c = 0 := by
            simp [logFinalCount, isLogFinalFor, haddr]
          rw [h1]
          split_ifs <;> omega
  · intro a s0 hls hnone
    rw [hMap] at hnone
    rw [hActs, logFinalCount_append]
    cases hl : lookupS m addr with
    | none =>
      have e1 : (handleData m addr len now).1 = [Action.logUnmatched addr len] := by
        rw [handleData_unmatched m addr len now hl]
      have e2 : (handleData m addr len now).2 = m := by
        rw [handleData_unmatched m addr len now hl]
      rw [e2] at hnone
      rw [lookupS_sweep m nowSweep a hm] at hnone
      by_cases hmem : a ∈ sweepCollect m nowSweep
      · have h0 : logFinalCount [Action.logUnmatched addr len] a = 0 := by
          simp [logFinalCount, isLogFinalFor]
        have hsome : (lookupS m a).isSome = true := by rw [hls]; rfl
        rw [e1, e2, h0, logFinalCount_sweep m nowSweep a hm, if_pos hmem,
          if_pos hsome]
      · rw [if_neg hmem] at hnone
        rw [hnone] at hls
        exact Option.noConfusion hls
    | some s1 =>
      by_cases hlive : now ≤ s1.deadline
      · have he := handleData_live m addr len now s1 hl hlive
        have e1 : (handleData m addr len now).1 = [] := by rw [he]
        have e2 : (handleData m addr len now).2 =
            insertS m addr ⟨s1.deadline, s1.totalBytes + len⟩ := by rw [he]
        rw [e2] at hnone
        rw [lookupS_sweep _ nowSweep a (keysNodup_insertS m addr _ hm)] at hnone
        have hsome : (lookupS (insertS m addr
            ⟨s1.deadline, s1.totalBytes + len⟩) a).isSome = true := by
          rw [lookupS_insertS]
          by_cases hb : a = addr
          · rw [if_pos hb]
            rfl
          · rw [if_neg hb, hls]
            rfl
        by_cases hmem : a ∈ sweepCollect
            (insertS m addr ⟨s1.deadline, s1.totalBytes + len⟩) nowSweep
        · rw [e1, e2, logFinalCount_nil,
            logFinalCount_sweep _ nowSweep a (keysNodup_insertS m addr _ hm),
            if_pos hmem, if_pos hsome]
        · rw [if_neg hmem] at hnone
          rw [hnone] at hsome
          simp at hsome
      · have he := handleData_expired m addr len now s1 hl hlive
        have e1 : (handleData m addr len now).1 =
            [Action.logFinal addr s1.totalBytes] := by rw [he]
        have e2 : (handleData m addr len now).2 = removeS m addr := by rw [he]
        rw [e2] at hnone
        rw [lookupS_sweep _ nowSweep a (keysNodup_removeS m addr hm)] at hnone
        by_cases hb : a = addr
        · subst hb
          have h1 : logFinalCount [Action.logFinal a s1.totalBytes] a = 1 := by
            simp [logFinalCount, isLogFinalFor]
          have hnone2 : lookupS (removeS m a) a = none := by
            rw [lookupS_removeS m a a hm, if_pos rfl]
          rw [e1, e2, h1,
            logFinalCount_sweep _ nowSweep a (keysNodup_removeS m a hm), hnone2]
          simp
        · have hlra : lookupS (removeS m addr) a = some s0 := by
            rw [lookupS_removeS m a addr hm, if_neg hb, hls]
          by_cases hmem : a ∈ sweepCollect (removeS m addr) nowSweep
          · have haddr : addr ≠ a := fun h => hb h.symm
            have h0 : logFinalCount [Action.logFinal addr s1.totalBytes] a = 0 := by
              simp [logFinalCount, isLogFinalFor, haddr]
            have hsome : (lookupS (removeS m addr) a).isSome = true := by
              rw [hlra]
              rfl
            rw [e1, e2, h0,
              logFinalCount_sweep _ nowSweep a (keysNodup_removeS m addr hm),
              if_pos hmem, if_pos hsome]
          · rw [if_neg hmem] at hnone
            rw [hnone] at hlra
            exact Option.noConfusion hlra

/-- Witness for the amended C2: with a live entry for peer (1,1)
(deadline 10) and an unmatched 4-byte datagram from peer (3,3) handled
at time 20, the sweep removes the expired entry and logs its final
count of 7 exactly once. -/
theorem C2_sweep_after_non_control_witness :
    logFinalCount (handleNonControl [(⟨1, 1⟩, ⟨10, 7⟩)] ⟨3, 3⟩ 4 20 20).1 ⟨1, 1⟩ = 1 := by
  have h := (C2_sweep_after_non_control [(⟨1, 1⟩, ⟨10, 7⟩)] ⟨3, 3⟩ 4 20 20
    (by decide)).2.2 ⟨1, 1⟩ ⟨10, 7⟩ (by decide) (by decide)
  exact h

theorem touchesTable_ackOnce (p : List Char) (d : SockAddr) (i : Nat) (ok : Bool)
    (a : Action) (h : a ∈ ackOnce p d i ok) : touchesTable a = false := by
  cases ok <;> simp [ackOnce] at h <;> rcases h with rfl | rfl | rfl <;> rfl

theorem touchesTable_ackLoopN (p : List Char) (d : SockAddr) (i : Nat) :
    ∀ (n : Nat) (oks : Nat → Bool) (a : Action),
      a ∈ ackLoopN p d i n oks → touchesTable a = false := by
  intro n
  induction n with
  | zero =>
    intro oks a h
    simp [ackLoopN] at h
  | succ k ih =>
    intro oks a h
    rcases List.mem_append.mp (by simpa [ackLoopN] using h) with h1 | h2
    · exact touchesTable_ackOnce p d i (oks 0) a h1
    · exact ih _ a h2

theorem filter_ackOnce (p : List Char) (d : SockAddr) (i : Nat) (ok : Bool) :
    (ackOnce p d i ok).filter isNotSendErrorLog =
      [Action.sendTo p d, Action.sleepUs i] := by
  cases ok <;> simp [ackOnce, isNotSendErrorLog]

theorem filter_ackLoopN (p : List Char) (d : SockAddr) (i : Nat) :
    ∀ (n : Nat) (oks : Nat → Bool),
      (ackLoopN p d i n oks).filter isNotSendErrorLog = ackFilteredN p d i n := by
  intro n
  induction n with
  | zero => intro oks; simp [ackLoopN, ackFilteredN]
  | succ k ih =>
    intro oks
    simp [ackLoopN, ackFilteredN, List.filter_append, filter_ackOnce, ih]

/-- C3: the dispatcher preserves key uniqueness of the session table
from the empty initial table (so every reachable table has at most one
entry per address), and a START_UPLOAD from an address with an existing
entry replaces it — the entry becomes deadline `now + 5s` and count 0,
and every other address's entry is untouched. -/
theorem C3_session_uniqueness (m : SessionMap) (addr : SockAddr)
    (payload : List Char) (len now nowSweep : Nat) (ackOks : Nat → Bool)
    (probeOk : Bool) (hm : keysNodup m) :
    keysNodup ([] : SessionMap) ∧
    keysNodup (udpDispatchStep m addr payload len now nowSweep ackOks probeOk).2 ∧
    (classify payload = MsgClass.upload →
      lookupS (udpDispatchStep m addr payload len now nowSweep ackOks probeOk).2
          addr = some ⟨now + windowUs, 0⟩ ∧
      ∀ b, b ≠ addr →
        lookupS (udpDispatchStep m addr payload len now nowSweep ackOks probeOk).2
            b = lookupS m b) := by
  refine ⟨List.nodup_nil, ?_, ?_⟩
  · cases hcl : classify payload with
    | download =>
      have e : (udpDispatchStep m addr payload len now nowSweep ackOks probeOk).2
          = m := by
        simp only [udpDispatchStep, hcl]
      rw [e]
      exact hm
    | upload =>
      have e : (udpDispatchStep m addr payload len now nowSweep ackOks probeOk).2
          = insertS m addr ⟨now + windowUs, 0⟩ := by
        simp only [udpDispatchStep, hcl]
        rfl
      rw [e]
      exact keysNodup_insertS m addr _ hm
    | data =>
      have e : (udpDispatchStep m addr payload len now nowSweep ackOks probeOk).2
          = (sweep (handleData m addr len now).2 nowSweep).2 := by
        simp only [udpDispatchStep, hcl]
        rfl
      rw [e]
      exact keysNodup_sweep _ nowSweep (keysNodup_handleData m addr len now hm)
  · intro hcl
    have e : (udpDispatchStep m addr payload len now nowSweep ackOks probeOk).2
        = insertS m addr ⟨now + windowUs, 0⟩ := by
      simp only [udpDispatchStep, hcl]
      rfl
    rw [e]
    refine ⟨?_, ?_⟩
    · rw [lookupS_insertS, if_pos rfl]
    · intro b hb
      rw [lookupS_insertS, if_neg hb]

/-- Witness for C3: a second START_UPLOAD from peer (1,1), whose table
entry had deadline 3 and count 5, handled at time 100, replaces the
entry with deadline 5000100 and count 0. -/
theorem C3_session_uniqueness_witness :
    lookupS
      (udpDispatchStep [(⟨1, 1⟩, ⟨3, 5⟩)] ⟨1, 1⟩ ulCmd 12 100 100 allSendsOk
        true).2 ⟨1, 1⟩ = some ⟨5000100, 0⟩ := by
  have h := (C3_session_uniqueness [(⟨1, 1⟩, ⟨3, 5⟩)] ⟨1, 1⟩ ulCmd 12 100 100
    allSendsOk true (by decide)).2.2 (by decide)
  exact h.1

/-- C10: a START_DOWNLOAD datagram leaves the session table completely
unchanged — whatever its state, including expired or live entries for
the sender itself — and the actions of that dispatch never touch the
table (no insert, no final-count log, no unmatched log, hence no
sweep). -/
theorem C10_download_frame (m : SessionMap) (addr : SockAddr)
    (payload : List Char) (len now nowSweep : Nat) (ackOks : Nat → Bool)
    (probeOk : Bool) (hcl : classify payload = MsgClass.download) :
    (udpDispatchStep m addr payload len now nowSweep ackOks probeOk).2 = m ∧
    ∀ a ∈ (udpDispatchStep m addr payload len now nowSweep ackOks probeOk).1,
      touchesTable a = false := by
  have e : udpDispatchStep m addr payload len now nowSweep ackOks probeOk =
      (handleStartDownload addr ackOks, m) := by
    simp only [udpDispatchStep, hcl]
  rw [e]
  refine ⟨rfl, ?_⟩
  intro a ha
  have ha2 : a ∈ ackLoopN ackDownloadPayload addr downloadAckIntervalUs ackCount
      ackOks ∨ a = Action.spawnDownload addr := by
    simpa [handleStartDownload] using ha
  rcases ha2 with h1 | rfl
  · exact touchesTable_ackLoopN _ _ _ ackCount ackOks a h1
  · rfl

/-- Witness for C10: a START_DOWNLOAD from peer (2,2) at time 11 leaves
a table holding an expired entry for peer (1,1) exactly as it was. -/
theorem C10_download_frame_witness :
    (udpDispatchStep [(⟨1, 1⟩, ⟨0, 7⟩)] ⟨2, 2⟩ dlCmd 20 11 11 allSendsOk
        true).2 = [(⟨1, 1⟩, ⟨0, 7⟩)] :=
  (C10_download_frame [(⟨1, 1⟩, ⟨0, 7⟩)] ⟨2, 2⟩ dlCmd 20 11 11 allSendsOk true
    (by decide)).1

/-- C7: handling a START_UPLOAD from `addr` registers the session entry
(deadline `now + 5s`, count 0) before any reply is sent — the insert is
the first action — then sends exactly 3 ACK_UPLOAD datagrams, each
followed by the fixed 20ms sleep, then exactly one 1-byte probe P; when
the probe send succeeds, the registration of the upload window is
logged. -/
theorem C7_start_upload_replies (m : SessionMap) (addr : SockAddr)
    (payload : List Char) (len now nowSweep : Nat) (ackOks : Nat → Bool)
    (probeOk : Bool) (hcl : classify payload = MsgClass.upload) :
    (udpDispatchStep m addr payload len now nowSweep ackOks probeOk).2 =
      insertS m addr ⟨now + windowUs, 0⟩ ∧
    (udpDispatchStep m addr payload len now nowSweep ackOks probeOk).1.head? =
      some (Action.tableInsert addr ⟨now + windowUs, 0⟩) ∧
    (udpDispatchStep m addr payload len now nowSweep ackOks
          probeOk).1.filter isNotSendErrorLog =
      Action.tableInsert addr ⟨now + windowUs, 0⟩ ::
        ([Action.sendTo ackUploadPayload addr,
          Action.sleepUs uploadAckIntervalUs,
          Action.sendTo ackUploadPayload addr,
          Action.sleepUs uploadAckIntervalUs,
          Action.sendTo ackUploadPayload addr,
          Action.sleepUs uploadAckIntervalUs,
          Action.sendTo probePayload addr] ++
          (if probeOk then [Action.logRegistered addr] else [])) ∧
    (probeOk = true →
      Action.logRegistered addr ∈
        (udpDispatchStep m addr payload len now nowSweep ackOks probeOk).1) := by
  have e : udpDispatchStep m addr payload len now nowSweep ackOks probeOk =
      handleStartUpload m addr now ackOks probeOk := by
    simp only [udpDispatchStep, hcl]
  rw [e]
  refine ⟨rfl, rfl, ?_, ?_⟩
  · cases probeOk <;>
      simp [handleStartUpload, isNotSendErrorLog, List.filter_append,
        filter_ackLoopN, ackCount, ackFilteredN]
  · intro hp
    subst hp
    simp [handleStartUpload, List.mem_append]

/-- Witness for C7: a START_UPLOAD from peer (9,9) at time 0 with all
reply sends succeeding produces the registration log line. -/
theorem C7_start_upload_replies_witness :
    Action.logRegistered ⟨9, 9⟩ ∈
      (udpDispatchStep [] ⟨9, 9⟩ ulCmd 12 0 0 allSendsOk true).1 :=
  (C7_start_upload_replies [] ⟨9, 9⟩ ulCmd 12 0 0 allSendsOk true
    (by decide)).2.2.2 rfl

/-! ### Window-bound lemmas for the timed loops -/

theorem tcpDownloadLoop_within (start : Nat) :
    ∀ (trace : List (Nat × Option IOErrorKind)) (t : Nat),
      t ∈ (tcpDownloadLoop start trace).2 → t - start < windowUs := by
  intro trace
  induction trace with
  | nil =>
    intro t ht
    simp [tcpDownloadLoop] at ht
  | cons p rest ih =>
    obtain ⟨t0, res⟩ := p
    intro t ht
    by_cases h : t0 - start < windowUs
    · cases hres : downloadWriteStep res with
      | continueSend =>
        simp only [tcpDownloadLoop, if_pos h, hres] at ht
        rcases List.mem_cons.mp ht with rfl | hmem
        · exact h
        · exact ih t hmem
      | endPhase =>
        simp only [tcpDownloadLoop, if_pos h, hres] at ht
        rw [List.mem_singleton.mp ht]
        exact h
    · simp [tcpDownloadLoop, h] at ht

theorem tcpUploadLoop_within (start : Nat) :
    ∀ (trace : List (Nat × ReadResult)) (t : Nat),
      t ∈ (tcpUploadLoop start trace).2 → t - start < windowUs := by
  intro trace
  induction trace with
  | nil =>
    intro t ht
    simp [tcpUploadLoop] at ht
  | cons p rest ih =>
    obtain ⟨t0, res⟩ := p
    intro t ht
    by_cases h : t0 - start < windowUs
    · cases hres : uploadPhaseStep res with
      | addBytes n =>
        simp only [tcpUploadLoop, if_pos h, hres] at ht
        rcases List.mem_cons.mp ht with rfl | hmem
        · exact h
        · exact ih t hmem
      | yieldRetry =>
        simp only [tcpUploadLoop, if_pos h, hres] at ht
        rcases List.mem_cons.mp ht with rfl | hmem
        · exact h
        · exact ih t hmem
      | endPhase =>
        simp only [tcpUploadLoop, if_pos h, hres] at ht
        rw [List.mem_singleton.mp ht]
        exact h
    · simp [tcpUploadLoop, h] at ht

theorem udpBurstLoop_within (dest : SockAddr) (start : Nat) :
    ∀ (trace : List (Nat × (Nat → SendResult))) (t : Nat),
      t ∈ (udpBurstLoop dest start trace).2 → t - start < windowUs := by
  intro trace
  induction trace with
  | nil =>
    intro t ht
    simp [udpBurstLoop] at ht
  | cons p rest ih =>
    obtain ⟨t0, res⟩ := p
    intro t ht
    by_cases h : t0 - start < windowUs
    · simp only [udpBurstLoop, if_pos h] at ht
      rcases List.mem_cons.mp ht with rfl | hmem
      · exact h
      · exact ih t hmem
    · simp [udpBurstLoop, h] at ht

/-- C4: in the TCP download phase, the TCP upload phase, and the UDP
burst-sender task, each starting at `start` with the fixed 5s window,
every write / read / burst is initiated only after an elapsed-time
check that passed — so no operation attributable to the phase is
initiated at a clock `t` with `t - start ≥ 5s`. -/
theorem C4_window_bound (dest : SockAddr) (start : Nat)
    (dtrace : List (Nat × Option IOErrorKind))
    (utrace : List (Nat × ReadResult))
    (btrace : List (Nat × (Nat → SendResult))) :
    (∀ t ∈ (tcpDownloadLoop start dtrace).2, t - start < windowUs) ∧
    (∀ t ∈ (tcpUploadLoop start utrace).2, t - start < windowUs) ∧
    (∀ t ∈ (udpBurstLoop dest start btrace).2, t - start < windowUs) :=
  ⟨fun t ht => tcpDownloadLoop_within start dtrace t ht,
   fun t ht => tcpUploadLoop_within start utrace t ht,
   fun t ht => udpBurstLoop_within dest start btrace t ht⟩

/-- Witness for C4: a download write initiated at clock 1 with phase
start 0 is within the window. -/
theorem C4_window_bound_witness : (1 : Nat) - 0 < windowUs :=
  (C4_window_bound ⟨0, 0⟩ 0 [(1, none)] [] []).1 1 (by decide)

/-- C5 counterexample: the claim says a would-block condition never ends
a phase early, the download phase included.  But the download write
dispatch ends the phase on every error — would-block included: a
would-block on the first write at clock 0 stops the download phase,
which never reaches the in-window write scheduled at clock 1. -/
theorem C5_would_block_counterexample :
    downloadWriteStep (some IOErrorKind.wouldBlock) = WriteStep.endPhase ∧
    (tcpDownloadLoop 0 [(0, some IOErrorKind.wouldBlock), (1, none)]).2 = [0] := by
  exact ⟨rfl, by decide⟩

/-- C5 amended: in the TCP upload phase a would-block read yields and
retries, leaving the phase's accounting to continue; in the TCP
download phase ANY write error — would-block included — ends the phase;
in the upload phase every non-would-block error (and a zero read) ends
the phase. -/
theorem C5_would_block_amended :
    uploadPhaseStep (ReadResult.err IOErrorKind.wouldBlock) =
      UploadStep.yieldRetry ∧
    (∀ start t rest, t - start < windowUs →
      (tcpUploadLoop start
          ((t, ReadResult.err IOErrorKind.wouldBlock) :: rest)).1 =
        (tcpUploadLoop start rest).1) ∧
    (∀ k, downloadWriteStep (some k) = WriteStep.endPhase) ∧
    (∀ k, k ≠ IOErrorKind.wouldBlock →
      uploadPhaseStep (ReadResult.err k) = UploadStep.endPhase) ∧
    uploadPhaseStep (ReadResult.ok 0) = UploadStep.endPhase := by
  refine ⟨rfl, ?_, fun k => rfl, ?_, rfl⟩
  · intro start t rest h
    simp [tcpUploadLoop, h, uploadPhaseStep]
  · intro k hk
    simp [uploadPhaseStep, hk]

/-- Witness for C5 amended: a would-block read at clock 3 does not end
the upload phase — the 10 bytes read at clock 4 are still accounted. -/
theorem C5_would_block_amended_witness :
    (tcpUploadLoop 0 [(3, ReadResult.err IOErrorKind.wouldBlock),
        (4, ReadResult.ok 10)]).1 = 10 := by
  have h := C5_would_block_amended.2.1 0 3 [(4, ReadResult.ok 10)] (by decide)
  rw [h]
  decide

/-- C6: the command-loop read of `handle_tcp_client` has exactly three
outcomes: a zero-length read or a connection-reset error terminates the
handler normally; any other read error terminates it with that error
propagated; a non-empty read proceeds to run the command. -/
theorem C6_command_read_outcomes (r : ReadResult) :
    (commandReadStep r = CmdOutcome.terminateOk ↔
      (r = ReadResult.ok 0 ∨ r = ReadResult.err IOErrorKind.connectionReset)) ∧
    (∀ k, r = ReadResult.err k → k ≠ IOErrorKind.connectionReset →
      commandReadStep r = CmdOutcome.terminateErr k) ∧
    (∀ n, r = ReadResult.ok (n + 1) →
      commandReadStep r = CmdOutcome.runCommand (n + 1)) ∧
    (commandReadStep r = CmdOutcome.terminateOk ∨
      (∃ k, r = ReadResult.err k ∧
        commandReadStep r = CmdOutcome.terminateErr k) ∨
      (∃ n, r = ReadResult.ok (n + 1) ∧
        commandReadStep r = CmdOutcome.runCommand (n + 1))) := by
  cases r with
  | ok n =>
    cases n with
    | zero => simp [commandReadStep]
    | succ k => simp [commandReadStep]
  | err k =>
    by_cases hk : k = IOErrorKind.connectionReset
    · subst hk
      simp [commandReadStep]
    · simp [commandReadStep, hk]

/-- Witness for C6: an unclassified I/O error (code 5) in the command
loop terminates the handler with that error propagated. -/
theorem C6_command_read_outcomes_witness :
    commandReadStep (ReadResult.err (IOErrorKind.other 5)) =
      CmdOutcome.terminateErr (IOErrorKind.other 5) :=
  (C6_command_read_outcomes (ReadResult.err (IOErrorKind.other 5))).2.1
    (IOErrorKind.other 5) rfl (by decide)

/-- C9: neither the TCP accept loop nor the UDP receive loop has an
exit path: every iteration — success or error — continues the loop, and
an accept / receive error is logged and followed by the fixed 10ms
delay before continuing. -/
theorem C9_loops_never_exit (r : AcceptResult) (m : SessionMap) (rr : RecvResult)
    (k : IOErrorKind) (now nowSweep : Nat) (ackOks : Nat → Bool)
    (probeOk : Bool) :
    (tcpAcceptIter r).2 = LoopCtl.continueLoop ∧
    (udpServerIter m rr now nowSweep ackOks probeOk).2.2 =
      LoopCtl.continueLoop ∧
    tcpAcceptIter (AcceptResult.err k) =
      ([Action.logIoError k, Action.sleepUs errRetryDelayUs],
        LoopCtl.continueLoop) ∧
    udpServerIter m (RecvResult.err k) now nowSweep ackOks probeOk =
      ([Action.logIoError k, Action.sleepUs errRetryDelayUs], m,
        LoopCtl.continueLoop) := by
  refine ⟨?_, ?_, rfl, rfl⟩
  · cases r <;> rfl
  · cases rr <;> rfl

/-! ### Burst-sender lemmas -/

theorem sendCount_cons_send (p : List Char) (d : SockAddr) (l : List Action) :
    sendCount (Action.sendTo p d :: l) = sendCount l + 1 := by
  simp [sendCount, List.filter_cons, isSendAction]

theorem firstErrBelow_lt :
    ∀ (n : Nat) (res : Nat → SendResult) (i : Nat),
      firstErrBelow res n = some i → i < n := by
  intro n
  induction n with
  | zero =>
    intro res i h
    simp [firstErrBelow] at h
  | succ k ih =>
    intro res i h
    cases h0 : res 0 with
    | ok b =>
      simp only [firstErrBelow, h0] at h
      rcases Option.map_eq_some'.mp h with ⟨j, hj, hij⟩
      have := ih _ j hj
      omega
    | err e =>
      simp only [firstErrBelow, h0] at h
      have hi : i = 0 := (Option.some.inj h).symm
      omega

theorem burstInner_no_err (dest : SockAddr) :
    ∀ (n : Nat) (res : Nat → SendResult), firstErrBelow res n = none →
      sendCount (burstInner dest n res).1 = n ∧
      (burstInner dest n res).2.1 = okBytesBelow res n ∧
      Action.sleepUs backoffUs ∉ (burstInner dest n res).1 := by
  intro n
  induction n with
  | zero =>
    intro res h
    refine ⟨rfl, rfl, ?_⟩
    simp [burstInner]
  | succ k ih =>
    intro res h
    cases h0 : res 0 with
    | ok b =>
      have hsh : firstErrBelow (fun i => res (i + 1)) k = none := by
        simp only [firstErrBelow, h0] at h
        exact Option.map_eq_none'.mp h
      obtain ⟨hc, hb, hs⟩ := ih _ hsh
      have e1 : (burstInner dest (k + 1) res).1 =
          Action.sendTo udpFiller dest ::
            (burstInner dest k (fun i => res (i + 1))).1 := by
        simp [burstInner, h0]
      have e2 : (burstInner dest (k + 1) res).2.1 =
          b + (burstInner dest k (fun i => res (i + 1))).2.1 := by
        simp [burstInner, h0]
      refine ⟨?_, ?_, ?_⟩
      · rw [e1, sendCount_cons_send, hc]
      · rw [e2, hb]
        simp [okBytesBelow, h0]
      · rw [e1]
        intro hmem
        rcases List.mem_cons.mp hmem with heq | hmem2
        · exact Action.noConfusion heq
        · exact hs hmem2
    | err e =>
      simp only [firstErrBelow, h0] at h
      exact Option.noConfusion h

theorem burstInner_err (dest : SockAddr) :
    ∀ (n : Nat) (res : Nat → SendResult) (i : Nat),
      firstErrBelow res n = some i →
        sendCount (burstInner dest n res).1 = i + 1 ∧
        (burstInner dest n res).2.1 = okBytesBelow res n ∧
        ∃ pre, (burstInner dest n res).1 =
          pre ++ [Action.sleepUs backoffUs] := by
  intro n
  induction n with
  | zero =>
    intro res i h
    simp [firstErrBelow] at h
  | succ k ih =>
    intro res i h
    cases h0 : res 0 with
    | ok b =>
      simp only [firstErrBelow, h0] at h
      rcases Option.map_eq_some'.mp h with ⟨j, hj, hij⟩
      obtain ⟨hc, hb, pre, hpre⟩ := ih _ j hj
      have e1 : (burstInner dest (k + 1) res).1 =
          Action.sendTo udpFiller dest ::
            (burstInner dest k (fun i2 => res (i2 + 1))).1 := by
        simp [burstInner, h0]
      have e2 : (burstInner dest (k + 1) res).2.1 =
          b + (burstInner dest k (fun i2 => res (i2 + 1))).2.1 := by
        simp [burstInner, h0]
      refine ⟨?_, ?_, ?_⟩
      · rw [e1, sendCount_cons_send, hc]
        omega
      · rw [e2, hb]
        simp [okBytesBelow, h0]
      · refine ⟨Action.sendTo udpFiller dest :: pre, ?_⟩
        rw [e1, hpre]
        rfl
    | err e =>
      simp only [firstErrBelow, h0] at h
      have hi : i = 0 := (Option.some.inj h).symm
      subst hi
      have e1 : (burstInner dest (k + 1) res).1 =
          Action.sendTo udpFiller dest ::
            (if e = IOErrorKind.wouldBlock then []
              else [Action.logSendError dest]) ++
              [Action.sleepUs backoffUs] := by
        simp [burstInner, h0]
      have e2 : (burstInner dest (k + 1) res).2.1 = 0 := by
        simp [burstInner, h0]
      refine ⟨?_, ?_, ?_⟩
      · rw [e1]
        by_cases hwb : e = IOErrorKind.wouldBlock <;>
          simp [hwb, sendCount, isSendAction, List.filter_cons,
            List.filter_append]
      · rw [e2]
        simp [okBytesBelow, h0]
      · refine ⟨Action.sendTo udpFiller dest ::
          (if e = IOErrorKind.wouldBlock then []
            else [Action.logSendError dest]), ?_⟩
        rw [e1]

theorem burstInner_flag (dest : SockAddr) (n : Nat) (res : Nat → SendResult) :
    ((burstInner dest (n + 1) res).2.2 = true) ↔
      ∃ b, res 0 = SendResult.ok b := by
  cases h0 : res 0 <;> simp [burstInner, h0]

/-- C8: in each burst-sender iteration, the burst attempts at most 16
sends; with no failure it performs exactly 16 sends accumulating the
reported bytes of each, with no backoff sleep; the first failed send
(at index i) ends the burst after i+1 attempts with a backoff sleep as
the burst's last action, keeping the bytes of the successful sends
before it; the `any_sent` flag is set exactly when the first send
succeeded, and after the burst the iteration ends in a single yield if
the flag is set, else in a backoff sleep. -/
theorem C8_burst_sender_behavior (dest : SockAddr) (res : Nat → SendResult) :
    sendCount (burstInner dest burstSize res).1 ≤ burstSize ∧
    (firstErrBelow res burstSize = none →
      sendCount (burstInner dest burstSize res).1 = burstSize ∧
      (burstInner dest burstSize res).2.1 = okBytesBelow res burstSize ∧
      Action.sleepUs backoffUs ∉ (burstInner dest burstSize res).1) ∧
    (∀ i, firstErrBelow res burstSize = some i →
      sendCount (burstInner dest burstSize res).1 = i + 1 ∧
      (burstInner dest burstSize res).2.1 = okBytesBelow res burstSize ∧
      ∃ pre, (burstInner dest burstSize res).1 =
        pre ++ [Action.sleepUs backoffUs]) ∧
    ((burstInner dest burstSize res).2.2 = true ↔
      ∃ b, res 0 = SendResult.ok b) ∧
    ((burstInner dest burstSize res).2.2 = true →
      ∃ pre, (burstIteration dest res).1 = pre ++ [Action.yieldNow]) ∧
    ((burstInner dest burstSize res).2.2 = false →
      ∃ pre, (burstIteration dest res).1 =
        pre ++ [Action.sleepUs backoffUs]) := by
  refine ⟨?_, fun h => burstInner_no_err dest burstSize res h,
    fun i h => burstInner_err dest burstSize res i h, ?_, ?_, ?_⟩
  · cases hfe : firstErrBelow res burstSize with
    | none =>
      rw [(burstInner_no_err dest burstSize res hfe).1]
    | some i =>
      rw [(burstInner_err dest burstSize res i hfe).1]
      have := firstErrBelow_lt burstSize res i hfe
      omega
  · exact burstInner_flag dest 15 res
  · intro hf
    refine ⟨(burstInner dest burstSize res).1, ?_⟩
    simp [burstIteration, hf]
  · intro hf
    refine ⟨(burstInner dest burstSize res).1, ?_⟩
    simp [burstIteration, hf]

/-- Witness for C8: with every send succeeding, the burst performs
exactly 16 sends. -/
theorem C8_burst_sender_behavior_witness :
    sendCount (burstInner ⟨1, 1⟩ burstSize allBurstOk).1 = burstSize :=
  ((C8_burst_sender_behavior ⟨1, 1⟩ allBurstOk).2.1 (by decide)).1

end Proj2Serv
